import Mathlib

/-!
Verification of the connection-dispatch and header-integrity layer of the
Andromeda proxy front end.  The definitions below are shallow embeddings of:

* `src/server/index.ts` — inbound dispatcher and its header sanitizer
  (namespace `Server`),
* `src/public/epoxy-safe/index.mjs` — the safe epoxy transport guard
  (namespace `EpoxySafe`); `src/public/libcurl-safe/index.mjs` is
  character-for-character the same sanitization and retry logic, so the
  guard is embedded once and the libcurl value sanitizer separately
  (namespace `LibcurlSafe`),
* `src/unnamed/part_000` — an alternative version of the server dispatch
  file present in the repository (namespace `Part000`).

JavaScript strings are modelled as Lean `String` (a list of unicode scalar
values); a regex `replace(pat, "")` whose pattern is a character class is a
filter over those characters.  JavaScript header values of type
`string | string[]` are modelled by `HVal`; untyped JavaScript values that
can reach the sanitizers at runtime are modelled by `JsVal`.
-/

namespace Andromeda

/-- The character class of `/[\x00-\x08\x0A-\x1F\x7F]/`, the permissive
(primary) sanitization pattern of epoxy-safe (`PRIMARY_SANITIZE_PATTERN`)
and libcurl-safe. -/
def permissiveBanned (c : Char) : Bool :=
  decide (c.toNat ≤ 0x08) ||
    (decide (0x0A ≤ c.toNat) && decide (c.toNat ≤ 0x1F)) ||
    decide (c.toNat = 0x7F)

/-- The complement of `/[^\x20-\x7E]/`, the strict fallback pattern
(`STRICT_SANITIZE_PATTERN`): characters that the strict profile keeps. -/
def strictKeep (c : Char) : Bool :=
  decide (0x20 ≤ c.toNat) && decide (c.toNat ≤ 0x7E)

/-- `value.replace(PRIMARY_SANITIZE_PATTERN, "")`: drop every character of
the permissive banned class. -/
def permissiveReplace (s : String) : String :=
  String.mk (s.data.filter (fun c => !permissiveBanned c))

/-- `value.replace(STRICT_SANITIZE_PATTERN, "")`: keep only printable
ASCII `0x20`–`0x7E`. -/
def strictReplace (s : String) : String :=
  String.mk (s.data.filter strictKeep)

/-- ECMAScript `WhiteSpace ∪ LineTerminator`, the class trimmed by
`String.prototype.trim`. -/
def isJsWhitespace (c : Char) : Bool :=
  decide (c.toNat = 0x09) || decide (c.toNat = 0x0A) || decide (c.toNat = 0x0B) ||
    decide (c.toNat = 0x0C) || decide (c.toNat = 0x0D) || decide (c.toNat = 0x20) ||
    decide (c.toNat = 0xA0) || decide (c.toNat = 0x1680) ||
    (decide (0x2000 ≤ c.toNat) && decide (c.toNat ≤ 0x200A)) ||
    decide (c.toNat = 0x2028) || decide (c.toNat = 0x2029) || decide (c.toNat = 0x202F) ||
    decide (c.toNat = 0x205F) || decide (c.toNat = 0xFEFF)

/-- Drop leading and trailing JavaScript whitespace from a character list. -/
def jsTrimList (l : List Char) : List Char :=
  ((l.dropWhile isJsWhitespace).reverse.dropWhile isJsWhitespace).reverse

/-- JavaScript `String.prototype.trim`. -/
def jsTrim (s : String) : String :=
  String.mk (jsTrimList s.data)

/-- A header value as typed in the sources: a single string or an ordered
sequence of strings. -/
inductive HVal where
  | one : String → HVal
  | many : List String → HVal
deriving DecidableEq

/-- Apply a string transformation to a header value, element-wise on
arrays (`value.map((v) => sanitizeHeaderValue(v))`). -/
def mapHVal (f : String → String) : HVal → HVal
  | .one s => .one (f s)
  | .many l => .many (l.map f)

/-- Does every character of the value satisfy `p`? -/
def HVal.allChars (p : Char → Bool) : HVal → Bool
  | .one s => s.data.all p
  | .many l => l.all (fun s => s.data.all p)

/-- An ordered header map, the shallow embedding of a JavaScript
`Record<string, string | string[]>`. -/
abbrev HeaderMap := List (String × HVal)

/-- `pre.isPrefixOf`-based model of JavaScript `String.prototype.startsWith`. -/
def strStartsWith (s pre : String) : Bool :=
  pre.data.isPrefixOf s.data

/-- Model of JavaScript `String.prototype.endsWith`. -/
def strEndsWith (s suf : String) : Bool :=
  suf.data.isSuffixOf s.data

/-- Is `needle` a contiguous substring of `hay`
(JavaScript `String.prototype.includes`)? -/
def hasSubstr : List Char → List Char → Bool
  | hay, needle =>
    needle.isPrefixOf hay ||
      match hay with
      | [] => false
      | _ :: t => hasSubstr t needle

/-- JavaScript `s.includes(pat)`. -/
def strIncludes (s pat : String) : Bool :=
  hasSubstr s.data pat.data

/-- ASCII lower-casing, the model of JavaScript `String.prototype.toLowerCase`
as used on header names compared against an ASCII allow-list. -/
def strToLower (s : String) : String :=
  String.mk (s.data.map Char.toLower)

/-- An untyped JavaScript value as it can reach the sanitizers at runtime:
a string, an integer number, a boolean, `null`, `undefined`, or an array. -/
inductive JsVal where
  | str : String → JsVal
  | num : Int → JsVal
  | boolV : Bool → JsVal
  | nullV : JsVal
  | undef : JsVal
  | arr : List JsVal → JsVal

mutual

/-- JavaScript `String(value)` coercion (`Array.prototype.toString` is
`join(",")`, in which `null` and `undefined` elements become empty). -/
def jsToString : JsVal → String
  | .str s => s
  | .num n => toString n
  | .boolV b => if b then "true" else "false"
  | .nullV => "null"
  | .undef => "undefined"
  | .arr l => jsJoin l

/-- `Array.prototype.join(",")` over coerced elements. -/
def jsJoin : List JsVal → String
  | [] => ""
  | [.nullV] => ""
  | [.undef] => ""
  | [v] => jsToString v
  | .nullV :: rest => "," ++ jsJoin rest
  | .undef :: rest => "," ++ jsJoin rest
  | v :: rest => jsToString v ++ "," ++ jsJoin rest

end

/-- Is the value a string (`typeof value === "string"`)? -/
def JsVal.isStr : JsVal → Bool
  | .str _ => true
  | _ => false

/-- JavaScript falsiness restricted to the modelled values
(`""`, `0`, `false`, `null`, `undefined`). -/
def JsVal.falsy : JsVal → Bool
  | .str s => s.isEmpty
  | .num n => decide (n = 0)
  | .boolV b => !b
  | .nullV => true
  | .undef => true
  | .arr _ => false

namespace Server

/-- `sanitizeHeaderValue` of `src/server/index.ts`, string path:
`value.replace(/[\x00\r\n]/g, "").replace(/[\x01-\x08\x0b\x0c\x0e-\x1f\x7f]/g, "").trim()`. -/
def pattern1 (c : Char) : Bool :=
  decide (c.toNat = 0x00) || decide (c.toNat = 0x0D) || decide (c.toNat = 0x0A)

/-- The class `/[\x01-\x08\x0b\x0c\x0e-\x1f\x7f]/` of the second replace. -/
def pattern2 (c : Char) : Bool :=
  (decide (0x01 ≤ c.toNat) && decide (c.toNat ≤ 0x08)) ||
    decide (c.toNat = 0x0B) || decide (c.toNat = 0x0C) ||
    (decide (0x0E ≤ c.toNat) && decide (c.toNat ≤ 0x1F)) ||
    decide (c.toNat = 0x7F)

/-- `sanitizeHeaderValue` of `src/server/index.ts` on a string input. -/
def sanitizeHeaderValue (s : String) : String :=
  jsTrim (String.mk ((s.data.filter (fun c => !pattern1 c)).filter (fun c => !pattern2 c)))

/-- `sanitizeHeaderValue` of `src/server/index.ts` on an arbitrary value:
`if (typeof value !== "string") { return String(value); }` — note the
coerced string is returned without the character filter. -/
def sanitizeHeaderValueV (v : JsVal) : String :=
  match v with
  | .str s => sanitizeHeaderValue s
  | v => jsToString v

/-- `sanitizeRequestHeaders` of `src/server/index.ts` — sanitize every
value (element-wise on arrays); header names are left untouched and no
entry is dropped. -/
def sanitizeRequestHeaders (m : HeaderMap) : HeaderMap :=
  m.map (fun kv => (kv.1, mapHVal sanitizeHeaderValue kv.2))

/-- An inbound request or upgrade: method, raw url, headers. -/
structure Req where
  method : String
  url : String
  headers : HeaderMap
deriving DecidableEq

/-- Modelled from the spec: `shouldRoute` of the external
`@tomphttp/bare-server-node` instance created with prefix `"/bare/"` —
"request path matches the registered tunnel-protocol prefix". -/
def shouldRouteBare (req : Req) : Bool :=
  strStartsWith req.url "/bare/"

/-- `req.url?.endsWith("/wisp/") || req.url?.endsWith("/adblock/")`. -/
def isWispUpgradeUrl (req : Req) : Bool :=
  strEndsWith req.url "/wisp/" || strEndsWith req.url "/adblock/"

/-- The downstream handler chosen for a plain HTTP request. -/
inductive ReqHandler where
  | tunnelRequest
  | application
deriving DecidableEq

/-- The `request` listener of `serverFactory` in `src/server/index.ts`:
sanitize the headers in place, then route to the bare server or fall
through to the application handler.  Returns the request object as seen
by the chosen handler together with the handler. -/
def handleRequest (req0 : Req) : Req × ReqHandler :=
  let req := { req0 with headers := sanitizeRequestHeaders req0.headers }
  if shouldRouteBare req then (req, .tunnelRequest) else (req, .application)

/-- The upgrade handler invoked, when any. -/
inductive UpgradeHandler where
  | tunnelUpgrade
  | wispRoute
deriving DecidableEq

/-- Outcome of the `upgrade` listener: the request object after in-place
sanitization, the handler invoked (if any), whether the socket was
destroyed, and the HTTP response bytes the dispatcher itself wrote. -/
structure UpgradeOutcome where
  req : Req
  invoked : Option UpgradeHandler
  socketDestroyed : Bool
  httpResponseBytes : List Nat
deriving DecidableEq

/-- The `upgrade` listener of `serverFactory` in `src/server/index.ts`. -/
def handleUpgrade (req0 : Req) : UpgradeOutcome :=
  let req := { req0 with headers := sanitizeRequestHeaders req0.headers }
  if shouldRouteBare req then ⟨req, some .tunnelUpgrade, false, []⟩
  else if isWispUpgradeUrl req then ⟨req, some .wispRoute, false, []⟩
  else ⟨req, none, true, []⟩

end Server

namespace EpoxySafe

/-- `sanitizeHeaderValue` of `src/public/epoxy-safe/index.mjs`:
coerce non-strings with `String(value)`, then apply
`PRIMARY_SANITIZE_PATTERN`. -/
def sanitizeHeaderValue (v : JsVal) : String :=
  let value := match v with | .str s => s | v => jsToString v
  permissiveReplace value

/-- One iteration of the `sanitizeHeaders` loop of
`src/public/epoxy-safe/index.mjs`: sanitize the name, skip the entry if
the sanitized name is empty or trims to empty, otherwise sanitize the
value element-wise. -/
def sanitizeEntry (kv : String × HVal) : Option (String × HVal) :=
  let sanitizedKey := permissiveReplace kv.1
  if sanitizedKey = "" ∨ jsTrim sanitizedKey = "" then none
  else some (sanitizedKey, mapHVal permissiveReplace kv.2)

/-- `sanitizeHeaders` of `src/public/epoxy-safe/index.mjs` on a typed
header map. -/
def sanitizeHeaders (m : HeaderMap) : HeaderMap :=
  m.filterMap sanitizeEntry

/-- A JavaScript error as observed by the guard: its `message`. -/
structure JsError where
  message : String
deriving DecidableEq

/-- `error && error.message && error.message.includes("InvalidHeaderValue")`. -/
def triggersRetry (e : JsError) : Bool :=
  !e.message.isEmpty && strIncludes e.message "InvalidHeaderValue"

/-- The fixed allow-list of the minimal-header retry. -/
def safeHeaderAllowList : List String :=
  ["accept", "accept-language", "content-type", "content-length", "user-agent"]

/-- The minimal header set built in the retry branch: keep only entries
whose lower-cased name is in the allow-list; string values get the strict
replace, non-string (array) values are kept as they are
(`typeof value === "string" ? value.replace(STRICT_SANITIZE_PATTERN, "") : value`). -/
def minimalHeadersOf (sanitized : HeaderMap) : HeaderMap :=
  sanitized.filterMap (fun kv =>
    if safeHeaderAllowList.contains (strToLower kv.1) then
      some (kv.1, match kv.2 with
        | .one s => .one (strictReplace s)
        | .many l => .many l)
    else none)

/-- `SafeEpoxyTransport.request` (identically
`SafeLibcurlTransport.request`): sanitize the headers, call the delegate;
on an error whose message includes `InvalidHeaderValue`, call the delegate
once more with the minimal header set; otherwise propagate.  The delegate
is indexed by the attempt number; the second component of the result is
the trace of header maps passed to the delegate. -/
def request {ρ : Type} (delegate : Nat → HeaderMap → Except JsError ρ)
    (headers : HeaderMap) : Except JsError ρ × List HeaderMap :=
  let sanitizedHeaders := sanitizeHeaders headers
  match delegate 0 sanitizedHeaders with
  | .ok r => (.ok r, [sanitizedHeaders])
  | .error e =>
    if triggersRetry e then
      let minimalHeaders := minimalHeadersOf sanitizedHeaders
      (delegate 1 minimalHeaders, [sanitizedHeaders, minimalHeaders])
    else (.error e, [sanitizedHeaders])

end EpoxySafe

namespace LibcurlSafe

/-- `sanitizeHeaderValue` of `src/public/libcurl-safe/index.mjs`:
the same coercion and `/[\x00-\x08\x0A-\x1F\x7F]/g` replace as the epoxy
wrapper. -/
def sanitizeHeaderValue (v : JsVal) : String :=
  let value := match v with | .str s => s | v => jsToString v
  permissiveReplace value

end LibcurlSafe

namespace Part000

/-- `sanitizeHeaderValue` of `src/unnamed/part_000`, string path:
`value.replace(/[\x00-\x08\x0A-\x1F\x7F]/g, "").replace(/\r?\n/g, " ").trim()`. -/
def replaceNewlines : List Char → List Char
  | [] => []
  | '\r' :: '\n' :: rest => ' ' :: replaceNewlines rest
  | '\n' :: rest => ' ' :: replaceNewlines rest
  | c :: rest => c :: replaceNewlines rest

/-- `sanitizeHeaderValue` of `src/unnamed/part_000` on a string input. -/
def sanitizeHeaderValue (s : String) : String :=
  jsTrim (String.mk (replaceNewlines (s.data.filter (fun c => !permissiveBanned c))))

/-- The downstream outcome of the `request` listener of
`src/unnamed/part_000`: the inline 204 preflight answer, the bare server,
or the application handler. -/
inductive ReqHandler000 where
  | preflight204
  | tunnelRequest
  | application
deriving DecidableEq

/-- The `request` listener of `serverFactory` in `src/unnamed/part_000`:
CORS headers are set, `OPTIONS` is answered inline, and the request is
routed — the inbound headers are never sanitized. -/
def handleRequest (req : Server.Req) : Server.Req × ReqHandler000 :=
  if req.method = "OPTIONS" then (req, .preflight204)
  else if Server.shouldRouteBare req then (req, .tunnelRequest)
  else (req, .application)

end Part000

/-- The spec's permissive-profile character set: HTAB, `0x20`–`0x7E`, and
obs-text `0x80`–`0xFF`. -/
def permissiveProfileChar (c : Char) : Bool :=
  decide (c.toNat = 0x09) || (decide (0x20 ≤ c.toNat) && decide (c.toNat ≤ 0x7E)) ||
    (decide (0x80 ≤ c.toNat) && decide (c.toNat ≤ 0xFF))

/-- The character set the permissive replace actually guarantees on its
output: HTAB, `0x20`–`0x7E`, or any character `≥ 0x80` (unbounded above). -/
def permissiveOutputChar (c : Char) : Bool :=
  decide (c.toNat = 0x09) || (decide (0x20 ≤ c.toNat) && decide (c.toNat ≤ 0x7E)) ||
    decide (0x80 ≤ c.toNat)

/-- A header map already compliant with the permissive profile: every
name is made of profile characters, is non-empty and does not trim to
empty, and every value is made of profile characters. -/
def profileCompliantMap (m : HeaderMap) : Bool :=
  m.all (fun kv => kv.1.data.all permissiveProfileChar && !(decide (kv.1 = "")) &&
    !(decide (jsTrim kv.1 = "")) && kv.2.allChars permissiveProfileChar)

/-! ## General lemmas about filters, `dropWhile` and trimming -/

theorem all_filter_self {α : Type} (p : α → Bool) (l : List α) :
    (l.filter p).all p = true := by
  rw [List.all_eq_true]
  intro a ha
  exact (List.mem_filter.mp ha).2

theorem all_imp {α : Type} {p q : α → Bool} {l : List α}
    (h : ∀ a, p a = true → q a = true) (hl : l.all p = true) : l.all q = true := by
  rw [List.all_eq_true] at *
  exact fun a ha => h a (hl a ha)

theorem all_of_sublist {α : Type} {p : α → Bool} {l₁ l₂ : List α}
    (h : l₁.Sublist l₂) (hl : l₂.all p = true) : l₁.all p = true := by
  rw [List.all_eq_true] at *
  exact fun a ha => hl a (h.subset ha)

theorem filter_of_all {α : Type} {p : α → Bool} {l : List α}
    (h : l.all p = true) : l.filter p = l :=
  List.filter_eq_self.mpr (List.all_eq_true.mp h)

theorem filter_idem {α : Type} (p : α → Bool) (l : List α) :
    (l.filter p).filter p = l.filter p :=
  filter_of_all (all_filter_self p l)

theorem dropWhile_head_false {α : Type} (p : α → Bool) :
    ∀ (l : List α) (x : α) (t : List α), l.dropWhile p = x :: t → p x = false := by
  intro l
  induction l with
  | nil => intro x t h; simp [List.dropWhile] at h
  | cons a s ih =>
    intro x t h
    by_cases ha : p a = true
    · rw [List.dropWhile_cons_of_pos ha] at h
      exact ih x t h
    · have ha' : p a = false := by simpa using ha
      rw [List.dropWhile_cons_of_neg (by simp [ha'])] at h
      injection h with h1 _
      rw [← h1]
      exact ha'

theorem dropWhile_idem {α : Type} (p : α → Bool) (l : List α) :
    (l.dropWhile p).dropWhile p = l.dropWhile p := by
  cases h : l.dropWhile p with
  | nil => simp
  | cons x t =>
    exact List.dropWhile_cons_of_neg (by simp [dropWhile_head_false p l x t h])

theorem trimRight_prefix (p : α → Bool) (m : List α) :
    ((m.reverse.dropWhile p).reverse) <+: m := by
  refine List.reverse_suffix.mp ?_
  rw [List.reverse_reverse]
  exact List.dropWhile_suffix p

theorem dropWhile_eq_self_of_prefix {α : Type} {p : α → Bool} {m k : List α}
    (hm : m.dropWhile p = m) (hk : k <+: m) : k.dropWhile p = k := by
  cases k with
  | nil => simp
  | cons x t =>
    obtain ⟨r, hr⟩ := hk
    rw [List.cons_append] at hr
    rw [← hr] at hm
    exact List.dropWhile_cons_of_neg
      (by simp [dropWhile_head_false p (x :: (t ++ r)) x (t ++ r) hm])

theorem jsTrimList_idem (l : List Char) : jsTrimList (jsTrimList l) = jsTrimList l := by
  have hm : (l.dropWhile isJsWhitespace).dropWhile isJsWhitespace
      = l.dropWhile isJsWhitespace := dropWhile_idem _ _
  have hpre : jsTrimList l <+: l.dropWhile isJsWhitespace := trimRight_prefix _ _
  have h1 : (jsTrimList l).dropWhile isJsWhitespace = jsTrimList l :=
    dropWhile_eq_self_of_prefix hm hpre
  show ((((jsTrimList l).dropWhile isJsWhitespace).reverse.dropWhile
      isJsWhitespace).reverse) = jsTrimList l
  rw [h1]
  show ((((l.dropWhile isJsWhitespace).reverse.dropWhile
      isJsWhitespace).reverse).reverse.dropWhile isJsWhitespace).reverse = jsTrimList l
  rw [List.reverse_reverse, dropWhile_idem]
  rfl

theorem jsTrimList_sublist (l : List Char) : (jsTrimList l).Sublist l := by
  have h1 : (((l.dropWhile isJsWhitespace).reverse.dropWhile isJsWhitespace)).Sublist
      (l.dropWhile isJsWhitespace).reverse := List.dropWhile_sublist _
  have h2 := h1.reverse
  rw [List.reverse_reverse] at h2
  exact h2.trans (List.dropWhile_sublist _)

theorem jsTrim_idem (s : String) : jsTrim (jsTrim s) = jsTrim s :=
  String.ext (jsTrimList_idem s.data)

/-! ## Character-class implications -/

theorem permKeep_imp_output {c : Char} (h : (!permissiveBanned c) = true) :
    permissiveOutputChar c = true := by
  have h' : permissiveBanned c = false := by simpa using h
  simp only [permissiveBanned, Bool.or_eq_false_iff, Bool.and_eq_false_iff,
    decide_eq_false_iff_not, not_le] at h'
  simp only [permissiveOutputChar, Bool.or_eq_true, Bool.and_eq_true, decide_eq_true_eq]
  omega

theorem profile_imp_keep {c : Char} (h : permissiveProfileChar c = true) :
    (!permissiveBanned c) = true := by
  simp only [permissiveProfileChar, Bool.or_eq_true, Bool.and_eq_true,
    decide_eq_true_eq] at h
  simp only [Bool.not_eq_true', permissiveBanned, Bool.or_eq_false_iff,
    Bool.and_eq_false_iff, decide_eq_false_iff_not, not_le]
  omega

theorem profile_imp_not_pattern1 {c : Char} (h : permissiveProfileChar c = true) :
    (!Server.pattern1 c) = true := by
  simp only [permissiveProfileChar, Bool.or_eq_true, Bool.and_eq_true,
    decide_eq_true_eq] at h
  simp only [Bool.not_eq_true', Server.pattern1, Bool.or_eq_false_iff,
    decide_eq_false_iff_not]
  omega

theorem profile_imp_not_pattern2 {c : Char} (h : permissiveProfileChar c = true) :
    (!Server.pattern2 c) = true := by
  simp only [permissiveProfileChar, Bool.or_eq_true, Bool.and_eq_true,
    decide_eq_true_eq] at h
  simp only [Bool.not_eq_true', Server.pattern2, Bool.or_eq_false_iff,
    Bool.and_eq_false_iff, decide_eq_false_iff_not, not_le]
  omega

theorem strictKeep_imp_output {c : Char} (h : strictKeep c = true) :
    permissiveOutputChar c = true := by
  simp only [strictKeep, Bool.and_eq_true, decide_eq_true_eq] at h
  simp only [permissiveOutputChar, Bool.or_eq_true, Bool.and_eq_true, decide_eq_true_eq]
  omega

/-! ## Value-level sanitizer lemmas -/

theorem permissiveReplace_idem (s : String) :
    permissiveReplace (permissiveReplace s) = permissiveReplace s :=
  String.ext (filter_idem _ s.data)

theorem strictReplace_idem (s : String) :
    strictReplace (strictReplace s) = strictReplace s :=
  String.ext (filter_idem _ s.data)

theorem permissiveReplace_of_all {s : String}
    (h : s.data.all (fun c => !permissiveBanned c) = true) : permissiveReplace s = s :=
  String.ext (filter_of_all h)

theorem strictReplace_of_all {s : String}
    (h : s.data.all strictKeep = true) : strictReplace s = s :=
  String.ext (filter_of_all h)

theorem permissiveReplace_of_profile {s : String}
    (h : s.data.all permissiveProfileChar = true) : permissiveReplace s = s :=
  permissiveReplace_of_all (all_imp (fun _ => profile_imp_keep) h)

theorem jsTrim_filter_aux {L : List Char} {q1 q2 : Char → Bool}
    (h1 : L.all q1 = true) (h2 : L.all q2 = true) :
    jsTrimList (((jsTrimList L).filter q1).filter q2) = jsTrimList L := by
  rw [filter_of_all (all_of_sublist (jsTrimList_sublist L) h1),
      filter_of_all (all_of_sublist (jsTrimList_sublist L) h2), jsTrimList_idem]

theorem server_sanitizeHeaderValue_idem (s : String) :
    Server.sanitizeHeaderValue (Server.sanitizeHeaderValue s)
      = Server.sanitizeHeaderValue s := by
  apply String.ext
  show jsTrimList (((jsTrimList ((s.data.filter (fun c => !Server.pattern1 c)).filter
        (fun c => !Server.pattern2 c))).filter (fun c => !Server.pattern1 c)).filter
        (fun c => !Server.pattern2 c))
      = jsTrimList ((s.data.filter (fun c => !Server.pattern1 c)).filter
        (fun c => !Server.pattern2 c))
  exact jsTrim_filter_aux
    (all_of_sublist (List.filter_sublist _) (all_filter_self _ _))
    (all_filter_self _ _)

theorem server_sanitizeHeaderValue_of_profile {s : String}
    (hall : s.data.all permissiveProfileChar = true) (htrim : jsTrim s = s) :
    Server.sanitizeHeaderValue s = s := by
  have h1 : s.data.filter (fun c => !Server.pattern1 c) = s.data :=
    filter_of_all (all_imp (fun _ => profile_imp_not_pattern1) hall)
  have h2 : s.data.filter (fun c => !Server.pattern2 c) = s.data :=
    filter_of_all (all_imp (fun _ => profile_imp_not_pattern2) hall)
  show jsTrim (String.mk ((s.data.filter (fun c => !Server.pattern1 c)).filter
      (fun c => !Server.pattern2 c))) = s
  rw [h1, h2]
  exact htrim

theorem replaceNewlines_eq_self : ∀ {l : List Char}, '\n' ∉ l →
    Part000.replaceNewlines l = l := by
  intro l
  induction l with
  | nil => intro _; rfl
  | cons c t ih =>
    intro h
    have hc : c ≠ '\n' := fun hc => h (hc ▸ List.mem_cons_self c t)
    have ht : '\n' ∉ t := fun ht => h (List.mem_cons_of_mem c ht)
    rw [Part000.replaceNewlines.eq_def]
    split
    · rename_i heq; exact (List.cons_ne_nil c t heq).elim
    · rename_i rest heq; injection heq with h1 h2; rw [h2] at ht
      exact absurd (List.mem_cons_self _ _) ht
    · rename_i rest heq; injection heq with h1 h2; exact absurd h1 hc
    · rename_i c2 rest heq; injection heq with h1 h2
      rw [← h1, ← h2, ih ht]

theorem part000_sanitizeHeaderValue_of_profile {s : String}
    (hall : s.data.all permissiveProfileChar = true) (htrim : jsTrim s = s) :
    Part000.sanitizeHeaderValue s = s := by
  have hfil : s.data.filter (fun c => !permissiveBanned c) = s.data :=
    filter_of_all (all_imp (fun _ => profile_imp_keep) hall)
  have hnl : '\n' ∉ s.data := by
    intro hmem
    have hmm := List.all_eq_true.mp hall _ hmem
    have hf : permissiveProfileChar '\n' = false := by decide
    rw [hf] at hmm
    exact Bool.false_ne_true hmm
  show jsTrim (String.mk (Part000.replaceNewlines
      (s.data.filter (fun c => !permissiveBanned c)))) = s
  rw [hfil, replaceNewlines_eq_self hnl]
  exact htrim

/-! ## Header-value (`HVal`) lemmas -/

theorem mapHVal_idem {f : String → String} (hf : ∀ s, f (f s) = f s) (v : HVal) :
    mapHVal f (mapHVal f v) = mapHVal f v := by
  cases v with
  | one s => simp [mapHVal, hf]
  | many l =>
    simp only [mapHVal, List.map_map]
    congr 1
    exact List.map_congr_left (fun a _ => hf a)

theorem mapHVal_allChars {f : String → String} {p : Char → Bool}
    (hf : ∀ s, (f s).data.all p = true) (v : HVal) :
    (mapHVal f v).allChars p = true := by
  cases v with
  | one s => simpa [mapHVal, HVal.allChars] using hf s
  | many l =>
    simp only [mapHVal, HVal.allChars, List.all_eq_true]
    intro s hs
    obtain ⟨a, _, rfl⟩ := List.mem_map.mp hs
    exact List.all_eq_true.mp (hf a)

theorem mapHVal_eq_self {f : String → String} {p : Char → Bool}
    (hf : ∀ s, s.data.all p = true → f s = s) {v : HVal}
    (hv : v.allChars p = true) : mapHVal f v = v := by
  cases v with
  | one s =>
    simp only [HVal.allChars] at hv
    simp [mapHVal, hf s hv]
  | many l =>
    simp only [HVal.allChars, List.all_eq_true] at hv
    simp only [mapHVal]
    congr 1
    have hmap : List.map f l = List.map id l :=
      List.map_congr_left (fun a ha => hf a (List.all_eq_true.mpr (hv a ha)))
    rw [hmap, List.map_id]

end Andromeda

namespace Andromeda

theorem server_sanitizeRequestHeaders_idem (m : HeaderMap) :
    Server.sanitizeRequestHeaders (Server.sanitizeRequestHeaders m)
      = Server.sanitizeRequestHeaders m := by
  unfold Server.sanitizeRequestHeaders
  rw [List.map_map]
  exact List.map_congr_left (fun kv _ =>
    congrArg (Prod.mk kv.1) (mapHVal_idem server_sanitizeHeaderValue_idem kv.2))

theorem epoxy_sanitizeEntry_bind (kv : String × HVal) :
    (EpoxySafe.sanitizeEntry kv).bind EpoxySafe.sanitizeEntry
      = EpoxySafe.sanitizeEntry kv := by
  unfold EpoxySafe.sanitizeEntry
  by_cases hcond : (permissiveReplace kv.1 = "" ∨ jsTrim (permissiveReplace kv.1) = "")
  · simp [hcond]
  · rw [if_neg hcond]
    show (if permissiveReplace (permissiveReplace kv.1) = "" ∨
          jsTrim (permissiveReplace (permissiveReplace kv.1)) = "" then none
        else some (permissiveReplace (permissiveReplace kv.1),
          mapHVal permissiveReplace (mapHVal permissiveReplace kv.2)))
      = some (permissiveReplace kv.1, mapHVal permissiveReplace kv.2)
    rw [permissiveReplace_idem, mapHVal_idem permissiveReplace_idem, if_neg hcond]

theorem epoxy_sanitizeHeaders_idem (m : HeaderMap) :
    EpoxySafe.sanitizeHeaders (EpoxySafe.sanitizeHeaders m)
      = EpoxySafe.sanitizeHeaders m := by
  unfold EpoxySafe.sanitizeHeaders
  rw [List.filterMap_filterMap]
  congr 1
  funext kv
  exact epoxy_sanitizeEntry_bind kv

end Andromeda

namespace Andromeda

theorem epoxy_sanitizeEntry_of_compliant {kv : String × HVal}
    (h1 : kv.1.data.all permissiveProfileChar = true)
    (h2 : kv.1 ≠ "") (h3 : jsTrim kv.1 ≠ "")
    (h4 : kv.2.allChars permissiveProfileChar = true) :
    EpoxySafe.sanitizeEntry kv = some kv := by
  unfold EpoxySafe.sanitizeEntry
  rw [permissiveReplace_of_profile h1]
  rw [if_neg (by push_neg; exact ⟨h2, h3⟩)]
  rw [mapHVal_eq_self (fun s hs => permissiveReplace_of_profile hs) h4]

theorem epoxy_sanitizeHeaders_of_compliant {m : HeaderMap}
    (h : profileCompliantMap m = true) : EpoxySafe.sanitizeHeaders m = m := by
  induction m with
  | nil => rfl
  | cons kv t ih =>
    unfold profileCompliantMap at h
    rw [List.all_cons, Bool.and_eq_true] at h
    obtain ⟨hkv, ht⟩ := h
    simp only [Bool.and_eq_true, Bool.not_eq_true', decide_eq_false_iff_not] at hkv
    obtain ⟨⟨⟨ha, hb⟩, hc⟩, hd⟩ := hkv
    unfold EpoxySafe.sanitizeHeaders
    rw [List.filterMap_cons, epoxy_sanitizeEntry_of_compliant ha hb hc hd]
    exact congrArg (List.cons kv) (ih ht)

theorem epoxy_sanitizeHeaders_mem {m : HeaderMap} {kv : String × HVal}
    (h : kv ∈ EpoxySafe.sanitizeHeaders m) :
    ∃ a ∈ m, kv = (permissiveReplace a.1, mapHVal permissiveReplace a.2)
      ∧ permissiveReplace a.1 ≠ "" ∧ jsTrim (permissiveReplace a.1) ≠ "" := by
  obtain ⟨a, ha, hfa⟩ := List.mem_filterMap.mp h
  unfold EpoxySafe.sanitizeEntry at hfa
  by_cases hcond : (permissiveReplace a.1 = "" ∨ jsTrim (permissiveReplace a.1) = "")
  · rw [if_pos hcond] at hfa
    exact absurd hfa (by simp)
  · rw [if_neg hcond] at hfa
    push_neg at hcond
    injection hfa with hkv
    exact ⟨a, ha, hkv.symm, hcond.1, hcond.2⟩

theorem epoxy_names_ok (m : HeaderMap) :
    (EpoxySafe.sanitizeHeaders m).all
      (fun kv => !(decide (jsTrim kv.1 = "")) && decide (permissiveReplace kv.1 = kv.1)) = true := by
  rw [List.all_eq_true]
  intro kv hkv
  obtain ⟨a, ha, hkv', hne, htr⟩ := epoxy_sanitizeHeaders_mem hkv
  rw [hkv']
  simp [htr, permissiveReplace_idem]

theorem epoxy_values_ok (m : HeaderMap) :
    (EpoxySafe.sanitizeHeaders m).all (fun kv => kv.2.allChars permissiveOutputChar) = true := by
  rw [List.all_eq_true]
  intro kv hkv
  obtain ⟨a, ha, hkv', hne, htr⟩ := epoxy_sanitizeHeaders_mem hkv
  rw [hkv']
  exact mapHVal_allChars
    (fun s => all_imp (fun c => permKeep_imp_output) (all_filter_self _ _)) a.2

theorem minimalHeaders_prop (sanitized : HeaderMap) :
    (EpoxySafe.minimalHeadersOf sanitized).all
      (fun kv => EpoxySafe.safeHeaderAllowList.contains (strToLower kv.1) &&
        (match kv.2 with | .one s => s.data.all strictKeep | .many _ => true)) = true := by
  rw [List.all_eq_true]
  intro kv hkv
  obtain ⟨a, ha, hfa⟩ := List.mem_filterMap.mp hkv
  by_cases hcond : EpoxySafe.safeHeaderAllowList.contains (strToLower a.1) = true
  · rw [if_pos hcond] at hfa
    injection hfa with hkv'
    rw [← hkv']
    simp only [hcond, Bool.true_and]
    cases a.2 with
    | one s => exact all_filter_self _ _
    | many l => rfl
  · rw [if_neg hcond] at hfa
    exact absurd hfa (by simp)

end Andromeda

namespace Andromeda

/-- C1, counterexample: the permissive profile does not strip characters
above `0xFF`.  The header value `"Ā"` (U+0100) passes `sanitizeHeaders`
unchanged although it lies outside the claimed output set
{HTAB, `0x20`–`0x7E`, `0x80`–`0xFF`}. -/
theorem c1_counterexample :
    EpoxySafe.sanitizeHeaders [("x", HVal.one "Ā")] = [("x", HVal.one "Ā")]
    ∧ permissiveProfileChar 'Ā' = false := by decide

/-- C1, amended: every output value of the strict replace contains only
characters in `0x20`–`0x7E`, for every input; every output value of the
permissive replace — value-level, and map-level through `sanitizeHeaders` —
contains only HTAB, `0x20`–`0x7E`, or characters `≥ 0x80`; characters above
`0xFF` are preserved by the permissive profile, not stripped. -/
theorem c1_sanitize_charset_amended (s : String) (m : HeaderMap) :
    (strictReplace s).data.all strictKeep = true
    ∧ (permissiveReplace s).data.all permissiveOutputChar = true
    ∧ (EpoxySafe.sanitizeHeaders m).all (fun kv => kv.2.allChars permissiveOutputChar) = true :=
  ⟨all_filter_self _ _,
   all_imp (fun _ => permKeep_imp_output) (all_filter_self _ _),
   epoxy_values_ok m⟩

/-- C4, counterexample: the inbound server-side sanitizer leaves header
names untouched — the name `"\x01"`, whose sanitization is the empty
string, is kept verbatim instead of the entry being dropped. -/
theorem c4_counterexample :
    Server.sanitizeRequestHeaders [("\x01", HVal.one "v")] = [("\x01", HVal.one "v")]
    ∧ permissiveReplace "\x01" = "" := by decide

/-- C4, amended: the transport-guard `sanitizeHeaders` sanitizes header
names (every output name is a fixed point of the permissive replace) and
never emits a name that is empty or trims to empty; the inbound
server-side `sanitizeRequestHeaders` sanitizes only values and passes
every name through unchanged, dropping no entry. -/
theorem c4_header_names_amended (m : HeaderMap) :
    (EpoxySafe.sanitizeHeaders m).all
      (fun kv => !(decide (jsTrim kv.1 = "")) && decide (permissiveReplace kv.1 = kv.1)) = true
    ∧ (Server.sanitizeRequestHeaders m).map Prod.fst = m.map Prod.fst := by
  refine ⟨epoxy_names_ok m, ?_⟩
  unfold Server.sanitizeRequestHeaders
  rw [List.map_map]
  rfl

/-- C5, counterexample: the server-side sanitizer trims, so the
profile-compliant value `" a"` (leading space, space is in the permissive
set) is not returned unchanged. -/
theorem c5_counterexample :
    (" a" : String).data.all permissiveProfileChar = true
    ∧ Server.sanitizeHeaderValue " a" = "a"
    ∧ (" a" : String) ≠ "a" := by decide

/-- C5, amended: a value made only of profile characters is a fixed point
of the transport-guard permissive replace and (for the strict set) of the
strict replace; the server-side and part_000 sanitizers return a compliant
value unchanged only when it additionally has no leading or trailing
whitespace; a compliant header map is a fixed point of the transport-guard
`sanitizeHeaders`. -/
theorem c5_compliant_fixed_point_amended (s : String) (m : HeaderMap) :
    (s.data.all permissiveProfileChar = true → permissiveReplace s = s)
    ∧ (s.data.all strictKeep = true → strictReplace s = s)
    ∧ (s.data.all permissiveProfileChar = true → jsTrim s = s →
        Server.sanitizeHeaderValue s = s)
    ∧ (s.data.all permissiveProfileChar = true → jsTrim s = s →
        Part000.sanitizeHeaderValue s = s)
    ∧ (profileCompliantMap m = true → EpoxySafe.sanitizeHeaders m = m) :=
  ⟨fun h => permissiveReplace_of_profile h,
   fun h => strictReplace_of_all h,
   fun h ht => server_sanitizeHeaderValue_of_profile h ht,
   fun h ht => part000_sanitizeHeaderValue_of_profile h ht,
   fun h => epoxy_sanitizeHeaders_of_compliant h⟩

/-- C5, witness: the amended fixed-point statement evaluated at the
compliant value `"ab"` and the compliant map `[("accept", "ok")]`. -/
theorem c5_compliant_fixed_point_witness :
    permissiveReplace "ab" = "ab" ∧ strictReplace "ab" = "ab"
    ∧ Server.sanitizeHeaderValue "ab" = "ab" ∧ Part000.sanitizeHeaderValue "ab" = "ab"
    ∧ EpoxySafe.sanitizeHeaders [("accept", HVal.one "ok")] = [("accept", HVal.one "ok")] := by
  obtain ⟨h1, h2, h3, h4, h5⟩ := c5_compliant_fixed_point_amended "ab" [("accept", HVal.one "ok")]
  exact ⟨h1 (by decide), h2 (by decide), h3 (by decide) (by decide),
    h4 (by decide) (by decide), h5 (by decide)⟩

/-- C6: sanitization is idempotent — for the server-side value sanitizer,
the permissive and strict replaces, the server-side header-map sanitizer,
and the transport-guard header-map sanitizer. -/
theorem c6_sanitize_idempotent (s : String) (m : HeaderMap) :
    Server.sanitizeHeaderValue (Server.sanitizeHeaderValue s) = Server.sanitizeHeaderValue s
    ∧ permissiveReplace (permissiveReplace s) = permissiveReplace s
    ∧ strictReplace (strictReplace s) = strictReplace s
    ∧ Server.sanitizeRequestHeaders (Server.sanitizeRequestHeaders m)
        = Server.sanitizeRequestHeaders m
    ∧ EpoxySafe.sanitizeHeaders (EpoxySafe.sanitizeHeaders m) = EpoxySafe.sanitizeHeaders m :=
  ⟨server_sanitizeHeaderValue_idem s, permissiveReplace_idem s, strictReplace_idem s,
   server_sanitizeRequestHeaders_idem m, epoxy_sanitizeHeaders_idem m⟩

end Andromeda

namespace Andromeda

/-- C2, counterexample: in the minimal-header retry, an array-valued
allow-listed header is passed through without the strict replace — the
retry header map still contains the HTAB in `"a\tb"`, which the strict
profile would remove. -/
theorem c2_counterexample :
    (EpoxySafe.request
        (fun _ _ => (Except.error ⟨"InvalidHeaderValue"⟩ : Except EpoxySafe.JsError Unit))
        [("accept", HVal.many ["a\tb"])]).2.getLast?
      = some [("accept", HVal.many ["a\tb"])]
    ∧ strictReplace "a\tb" = "ab" ∧ ("a\tb" : String) ≠ "ab" := by decide

/-- C2, amended: when the first delegate call fails with an
invalid-header error, the guard makes exactly one retry whose header map
is the allow-listed subset of the sanitized headers — every kept name
lower-cases into the allow-list, every kept string value is passed through
the strict replace, and array values are kept as permissive-sanitized —
and the retry's outcome is returned as is: exactly two delegate calls. -/
theorem c2_bounded_retry_amended {ρ : Type}
    (delegate : Nat → HeaderMap → Except EpoxySafe.JsError ρ)
    (h : HeaderMap) (e : EpoxySafe.JsError)
    (hfail : delegate 0 (EpoxySafe.sanitizeHeaders h) = .error e)
    (hmsg : EpoxySafe.triggersRetry e = true) :
    EpoxySafe.request delegate h
      = (delegate 1 (EpoxySafe.minimalHeadersOf (EpoxySafe.sanitizeHeaders h)),
         [EpoxySafe.sanitizeHeaders h,
          EpoxySafe.minimalHeadersOf (EpoxySafe.sanitizeHeaders h)])
    ∧ (EpoxySafe.minimalHeadersOf (EpoxySafe.sanitizeHeaders h)).all
        (fun kv => EpoxySafe.safeHeaderAllowList.contains (strToLower kv.1) &&
          (match kv.2 with | .one s => s.data.all strictKeep | .many _ => true)) = true := by
  constructor
  · simp only [EpoxySafe.request]
    rw [hfail]
    simp [hmsg]
  · exact minimalHeaders_prop _

/-- C9: when the first delegate call fails with an error that does not
identify an invalid-header condition (for example a cancellation), the
guard makes exactly one delegate call, never builds the minimal-header
retry, and propagates the error unchanged. -/
theorem c9_no_retry_on_other_errors {ρ : Type}
    (delegate : Nat → HeaderMap → Except EpoxySafe.JsError ρ)
    (h : HeaderMap) (e : EpoxySafe.JsError)
    (hfail : delegate 0 (EpoxySafe.sanitizeHeaders h) = .error e)
    (hmsg : EpoxySafe.triggersRetry e = false) :
    EpoxySafe.request delegate h = (.error e, [EpoxySafe.sanitizeHeaders h]) := by
  simp only [EpoxySafe.request]
  rw [hfail]
  simp [hmsg]

/-- C9, witness: a delegate failing with an abort error is called once
and its error is propagated. -/
theorem c9_no_retry_witness :
    EpoxySafe.request
        (fun _ _ => (Except.error ⟨"The operation was aborted"⟩ : Except EpoxySafe.JsError Unit))
        []
      = (.error ⟨"The operation was aborted"⟩, [EpoxySafe.sanitizeHeaders []]) :=
  c9_no_retry_on_other_errors _ [] ⟨"The operation was aborted"⟩ rfl (by decide)

/-- C2, witness: the amended bounded-retry statement evaluated at a
delegate that fails with `InvalidHeaderValue` and then fails again. -/
theorem c2_bounded_retry_witness :
    EpoxySafe.request
        (fun n _ => if n = 0
          then (Except.error ⟨"InvalidHeaderValue"⟩ : Except EpoxySafe.JsError Unit)
          else .error ⟨"still failing"⟩)
        [("accept", HVal.one "x"), ("cookie", HVal.one "y")]
      = (Except.error ⟨"still failing"⟩,
         [EpoxySafe.sanitizeHeaders [("accept", HVal.one "x"), ("cookie", HVal.one "y")],
          EpoxySafe.minimalHeadersOf (EpoxySafe.sanitizeHeaders
            [("accept", HVal.one "x"), ("cookie", HVal.one "y")])])
    ∧ (EpoxySafe.minimalHeadersOf (EpoxySafe.sanitizeHeaders
          [("accept", HVal.one "x"), ("cookie", HVal.one "y")])).all
        (fun kv => EpoxySafe.safeHeaderAllowList.contains (strToLower kv.1) &&
          (match kv.2 with | .one s => s.data.all strictKeep | .many _ => true)) = true := by
  have hmain := c2_bounded_retry_amended
    (fun n _ => if n = 0
      then (Except.error ⟨"InvalidHeaderValue"⟩ : Except EpoxySafe.JsError Unit)
      else .error ⟨"still failing"⟩)
    [("accept", HVal.one "x"), ("cookie", HVal.one "y")] ⟨"InvalidHeaderValue"⟩ rfl (by decide)
  exact ⟨hmain.1.trans (by rfl), hmain.2⟩

end Andromeda

namespace Andromeda

/-- C3, counterexample: the dispatcher of `src/unnamed/part_000` performs
no inbound sanitization — a request whose header value contains a carriage
return is handed to the downstream handler with its raw headers, which
differ from their sanitized form. -/
theorem c3_counterexample :
    (Part000.handleRequest ⟨"GET", "/x", [("x-test", HVal.one "a\rb")]⟩).1
      = ⟨"GET", "/x", [("x-test", HVal.one "a\rb")]⟩
    ∧ Server.sanitizeRequestHeaders [("x-test", HVal.one "a\rb")]
      ≠ [("x-test", HVal.one "a\rb")] := by decide

/-- C3, amended: in `src/server/index.ts` both the request listener and
the upgrade listener replace the headers with their sanitized copy before
classification and before any handler runs, unconditionally — including
for upgrades that end in a destroyed socket; the dispatcher variant in
`src/unnamed/part_000` passes the request through unsanitized. -/
theorem c3_sanitize_first_amended (r : Server.Req) :
    (Server.handleRequest r).1.headers = Server.sanitizeRequestHeaders r.headers
    ∧ (Server.handleUpgrade r).req.headers = Server.sanitizeRequestHeaders r.headers
    ∧ (Part000.handleRequest r).1 = r := by
  refine ⟨?_, ?_, ?_⟩
  · simp only [Server.handleRequest]
    split <;> rfl
  · simp only [Server.handleUpgrade]
    split
    · rfl
    · split <;> rfl
  · simp only [Part000.handleRequest]
    split
    · rfl
    · split <;> rfl

/-- C7: route classification follows the fixed precedence with first
match winning — a request or upgrade whose url matches the tunnel-protocol
route goes to the tunnel handler (never the application handler, even when
a tunnel-websocket suffix also matches), a non-matching upgrade with a
tunnel-websocket suffix goes to the websocket handler, and everything else
falls through to the application handler; exactly one handler per request
by construction. -/
theorem c7_routing_precedence (r : Server.Req) :
    (Server.shouldRouteBare r = true →
        (Server.handleRequest r).2 = Server.ReqHandler.tunnelRequest
        ∧ (Server.handleUpgrade r).invoked = some Server.UpgradeHandler.tunnelUpgrade)
    ∧ (Server.shouldRouteBare r = false →
        (Server.handleRequest r).2 = Server.ReqHandler.application)
    ∧ (Server.shouldRouteBare r = false → Server.isWispUpgradeUrl r = true →
        (Server.handleUpgrade r).invoked = some Server.UpgradeHandler.wispRoute) := by
  have hb : Server.shouldRouteBare { r with headers := Server.sanitizeRequestHeaders r.headers }
      = Server.shouldRouteBare r := rfl
  have hw : Server.isWispUpgradeUrl { r with headers := Server.sanitizeRequestHeaders r.headers }
      = Server.isWispUpgradeUrl r := rfl
  refine ⟨fun h => ⟨?_, ?_⟩, fun h => ?_, fun h hwisp => ?_⟩
  · simp [Server.handleRequest, hb, h]
  · simp [Server.handleUpgrade, hb, h]
  · simp [Server.handleRequest, hb, h]
  · simp [Server.handleUpgrade, hb, hw, h, hwisp]

/-- C7, witness: the precedence statement evaluated on concrete urls,
including a url matching both the tunnel route and a websocket suffix. -/
theorem c7_routing_precedence_witness :
    (Server.handleRequest ⟨"GET", "/bare/app.js", []⟩).2 = Server.ReqHandler.tunnelRequest
    ∧ (Server.handleUpgrade ⟨"GET", "/bare/x/wisp/", []⟩).invoked
        = some Server.UpgradeHandler.tunnelUpgrade
    ∧ (Server.handleRequest ⟨"GET", "/index.html", []⟩).2 = Server.ReqHandler.application
    ∧ (Server.handleUpgrade ⟨"GET", "/x/wisp/", []⟩).invoked
        = some Server.UpgradeHandler.wispRoute :=
  ⟨((c7_routing_precedence ⟨"GET", "/bare/app.js", []⟩).1 (by decide)).1,
   ((c7_routing_precedence ⟨"GET", "/bare/x/wisp/", []⟩).1 (by decide)).2,
   (c7_routing_precedence ⟨"GET", "/index.html", []⟩).2.1 (by decide),
   (c7_routing_precedence ⟨"GET", "/x/wisp/", []⟩).2.2 (by decide) (by decide)⟩

/-- C8: an upgrade that matches neither the tunnel-protocol route nor a
tunnel-websocket suffix destroys the socket immediately, invokes no
handler, and writes zero bytes of HTTP response. -/
theorem c8_unmatched_upgrade_closed (r : Server.Req)
    (h1 : Server.shouldRouteBare r = false) (h2 : Server.isWispUpgradeUrl r = false) :
    (Server.handleUpgrade r).invoked = none
    ∧ (Server.handleUpgrade r).socketDestroyed = true
    ∧ (Server.handleUpgrade r).httpResponseBytes = [] := by
  have hb : Server.shouldRouteBare { r with headers := Server.sanitizeRequestHeaders r.headers }
      = Server.shouldRouteBare r := rfl
  have hw : Server.isWispUpgradeUrl { r with headers := Server.sanitizeRequestHeaders r.headers }
      = Server.isWispUpgradeUrl r := rfl
  simp [Server.handleUpgrade, hb, hw, h1, h2]

/-- C8, witness: the unmatched-upgrade statement evaluated at the url
`"/other"`. -/
theorem c8_unmatched_upgrade_witness :
    (Server.handleUpgrade ⟨"GET", "/other", []⟩).invoked = none
    ∧ (Server.handleUpgrade ⟨"GET", "/other", []⟩).socketDestroyed = true
    ∧ (Server.handleUpgrade ⟨"GET", "/other", []⟩).httpResponseBytes = [] :=
  c8_unmatched_upgrade_closed ⟨"GET", "/other", []⟩ (by decide) (by decide)

/-- C10, counterexample: the server-side sanitizer returns the
`String(value)` coercion of a non-string value without applying the
character filter — the nested-array value whose coercion is `"a\nb"` is
returned with the newline, while the character filter would produce
`"ab"`. -/
theorem c10_counterexample :
    Server.sanitizeHeaderValueV (.arr [.str "a\nb"]) = "a\nb"
    ∧ Server.sanitizeHeaderValue "a\nb" = "ab"
    ∧ ("a\nb" : String) ≠ "ab" := by
  refine ⟨?_, by decide, by decide⟩
  show jsToString (.arr [.str "a\nb"]) = "a\nb"
  simp [jsToString, jsJoin]

/-- C10, amended: sanitization is total over arbitrary values at every
entry point (the Lean functions are total); the transport-guard
sanitizers coerce non-strings with `String(value)` and then apply the
permissive filter, so their output always satisfies the permissive output
character set; the server-side sanitizer returns the coercion of a
non-string value without applying the character filter. -/
theorem c10_nonstring_coercion_amended (v : JsVal) :
    EpoxySafe.sanitizeHeaderValue v = permissiveReplace (jsToString v)
    ∧ LibcurlSafe.sanitizeHeaderValue v = permissiveReplace (jsToString v)
    ∧ (EpoxySafe.sanitizeHeaderValue v).data.all permissiveOutputChar = true
    ∧ (v.isStr = false → Server.sanitizeHeaderValueV v = jsToString v) := by
  refine ⟨?_, ?_, ?_, ?_⟩
  · cases v <;> simp [EpoxySafe.sanitizeHeaderValue, jsToString]
  · cases v <;> simp [LibcurlSafe.sanitizeHeaderValue, jsToString]
  · exact all_imp (fun _ => permKeep_imp_output) (all_filter_self _ _)
  · intro hv
    cases v <;> first
      | rfl
      | simp [JsVal.isStr] at hv

/-- C10, witness: the amended coercion statement evaluated at the
numeric value `5`. -/
theorem c10_nonstring_coercion_witness :
    EpoxySafe.sanitizeHeaderValue (.num 5) = permissiveReplace (jsToString (.num 5))
    ∧ LibcurlSafe.sanitizeHeaderValue (.num 5) = permissiveReplace (jsToString (.num 5))
    ∧ (EpoxySafe.sanitizeHeaderValue (.num 5)).data.all permissiveOutputChar = true
    ∧ Server.sanitizeHeaderValueV (.num 5) = jsToString (.num 5) := by
  obtain ⟨h1, h2, h3, h4⟩ := c10_nonstring_coercion_amended (.num 5)
  exact ⟨h1, h2, h3, h4 rfl⟩

end Andromeda
